import Mathlib

/-!
Verification of the PGA encode/decode utilities and the geometric bilinear
layer composition of the annotated-simplified-gatr repository.

The embedding works at the level of a single batch element: a multivector is
a map from the 16 blade indices to rational coordinates, and a multivector
tensor with a channel axis is a list of multivectors.  Real tensor entries
are modelled by rationals; the encode and decode arithmetic involved here is
exact (multiplication by powers of two and a division), so nothing depends
on floating-point rounding.
-/

set_option autoImplicit false

namespace Ezgatr

/-- A multivector of the 16-dimensional projective geometric algebra used by
GATr: one coordinate per basis blade, indexed 0 to 15. -/
abbrev Mv : Type := Fin 16 → ℚ

/-- The all-zero multivector, as produced by torch.zeros with last axis 16. -/
def mvZero : Mv := fun _ => 0

/-- Index assignment on a multivector, modelling the in-place update
mvs[..., j] = v of the source. -/
def mvSet (m : Mv) (j : ℕ) (v : ℚ) : Mv :=
  fun i => if i.val = j then v else m i

/-- Length-3 slice assignment on a multivector, modelling the in-place update
mvs[..., lo:lo+3] = vals of the source. -/
def mvSet3 (m : Mv) (lo : ℕ) (vals : Fin 3 → ℚ) : Mv :=
  fun i => if h : lo ≤ i.val ∧ i.val < lo + 3 then vals ⟨i.val - lo, by omega⟩ else m i

/-- Errors raised by the Python code or by the tensor substrate.  The model
keeps only the error class; the messages of the source are recorded in the
doc comments of the raising definitions. -/
inductive PyError : Type where
  | valueError : PyError
  | indexError : PyError
  | shapeError : PyError
deriving DecidableEq

namespace Point

/-- Point.encode of src/src/ezgatr/utils/encode.py: starting from the zero
multivector, set index 14 to 1, index 13 to minus the x coordinate, index 12
to the y coordinate and index 11 to minus the z coordinate. -/
def encode (points : Fin 3 → ℚ) : Mv :=
  mvSet (mvSet (mvSet (mvSet mvZero 14 1) 13 (-points 0)) 12 (points 1)) 11 (-points 2)

/-- Point.decode of encode.py: the body is a bare pass statement, so the
Python call returns None without raising.  The result models a call that can
raise (error case) or return a value; the actual code returns ok none,
standing for the Python value None. -/
def decode (mvs : Mv) : Except PyError (Option (Fin 3 → ℚ)) := Except.ok none

end Point

namespace Translation

/-- Translation.encode of encode.py: starting from the zero multivector, set
index 0 to 1 and indices 5 to 7 to minus one half of the translation
vector. -/
def encode (delta : Fin 3 → ℚ) : Mv :=
  mvSet3 (mvSet mvZero 0 1) 5 (fun k => -(1 / 2) * delta k)

/-- Translation.decode of encode.py: read minus two times indices 5 to 7;
when divide_by_embedding_dim is set, divide by the scalar component at index
0, replaced by threshold whenever its absolute value is not above
threshold. -/
def decode (mvs : Mv) (divide_by_embedding_dim : Bool) (threshold : ℚ) : Fin 3 → ℚ :=
  let delta : Fin 3 → ℚ := fun k => -2 * mvs ⟨5 + k.val, by have := k.isLt; omega⟩
  if divide_by_embedding_dim then
    let embedding_dim : ℚ := if |mvs 0| > threshold then mvs 0 else threshold
    fun k => delta k / embedding_dim
  else
    delta

end Translation

/-- The second argument of Plane.encode is a tensor whose meaning the source
dispatches on dynamically via distance.dim(): a 0-dimensional tensor, a
1-dimensional tensor (the only case the source treats as a scalar distance),
or a position on the plane, which in batched use is a tensor of dimension at
least 2 and is modelled here by its per-instance 3-vector. -/
inductive DistArg : Type where
  | dim0 (d : ℚ)
  | dim1 (ds : List ℚ)
  | position (p : Fin 3 → ℚ)

namespace Plane

/-- Plane.encode of encode.py: fill indices 2 to 4 with the normal; when
distance.dim() == 1, place the distance at index 1 and return.  Otherwise
encode translators for the position and its negation and conjugate the plane
with them through the geometric product imported from
ezgatr.primitives.bilinear, which is not part of this snapshot and is passed
here as an abstract argument gp (modelled from the spec, which fixes only
its signature).  A 0-dimensional distance falls into this second branch and
Translation.encode then raises on the slice of the 0-dimensional tensor
(an IndexError from delta[..., :]); a 1-dimensional distance of length other
than one fails to broadcast into the scalar slot at index 1. -/
def encode (gp : Mv → Mv → Mv) (normals : Fin 3 → ℚ) (distance : DistArg) :
    Except PyError Mv :=
  match distance with
  | DistArg.dim1 [d] => Except.ok (mvSet (mvSet3 mvZero 2 normals) 1 d)
  | DistArg.dim1 _ => Except.error PyError.shapeError
  | DistArg.dim0 _ => Except.error PyError.indexError
  | DistArg.position p =>
      Except.ok
        (gp (gp (Translation.encode p) (mvSet3 mvZero 2 normals))
          (Translation.encode (fun k => -(p k))))

/-- Plane.decode of encode.py: the body is a bare pass statement, so the
Python call returns None without raising. -/
def decode (mvs : Mv) : Except PyError (Option ((Fin 3 → ℚ) × ℚ)) := Except.ok none

end Plane

namespace Reflection

/-- Reflection.encode of encode.py: a pure alias of Plane.encode. -/
def encode (gp : Mv → Mv → Mv) (normals : Fin 3 → ℚ) (positions : DistArg) :
    Except PyError Mv :=
  Plane.encode gp normals positions

/-- Reflection.decode of encode.py: a pure alias of Plane.decode. -/
def decode (mvs : Mv) : Except PyError (Option ((Fin 3 → ℚ) × ℚ)) := Plane.decode mvs

end Reflection

namespace Rotation

/-- Rotation.encode of encode.py: the body is a bare pass statement, so the
Python call returns None without raising. -/
def encode (quaternions : Fin 4 → ℚ) : Except PyError (Option Mv) := Except.ok none

/-- Rotation.decode of encode.py: the body is a bare pass statement, so the
Python call returns None without raising. -/
def decode (mvs : Mv) : Except PyError (Option (Fin 4 → ℚ)) := Except.ok none

end Rotation

/-- Modelled from the spec: EquiLinear is imported from ezgatr.nn, which is
not part of this snapshot.  The spec fixes only its collaborator contract: a
learned equivariant linear map acting on the channel axis, taking cin
channels to cout channels and preserving the multivector axis.  It is
modelled as a bundled channel map together with that channel-count
contract; the learned weights are absorbed into the function. -/
structure EquiLinear : Type where
  cin : ℕ
  cout : ℕ
  apply : List Mv → List Mv
  len_apply : ∀ xs : List Mv, xs.length = cin → (apply xs).length = cout

/-- ModelConfig of src/src/ezgatr/nets/mv_only_gatr.py: the immutable
configuration record read by all layers at construction. -/
structure ModelConfig : Type where
  size_context : ℕ
  size_channels_in : ℕ
  size_channels_out : ℕ
  size_channels_hidden : ℕ
  size_channels_intermediate : ℕ
  norm_eps : Option ℚ
  norm_channelwise_rescale : Bool
deriving DecidableEq

/-- The field defaults of ModelConfig in the source: size_context 2048,
one input and one output channel, 32 hidden and 32 intermediate channels,
no explicit normalization epsilon, channel-wise rescale on. -/
def defaultConfig : ModelConfig := ⟨2048, 1, 1, 32, 32, none, true⟩

/-- Chunking loop behind torch.split along the channel axis, with an
explicit fuel argument for structural termination; the fuel is instantiated
with the list length, which bounds the number of chunks. -/
def splitChunksAux {α : Type} : ℕ → ℕ → List α → List (List α)
  | 0, _, _ => []
  | _, _, [] => []
  | Nat.succ fuel, size, x :: xs =>
      ((x :: xs).take size) :: splitChunksAux fuel size ((x :: xs).drop size)

/-- torch.split(t, size, dim=-2): cut the channel list into consecutive
chunks of the given size, the last chunk possibly shorter.  A zero split
size is only legal on an empty channel dimension (torch raises a
RuntimeError otherwise, modelled as valueError), and an empty channel
dimension yields a single empty chunk. -/
def torchSplit {α : Type} (xs : List α) (size : ℕ) : Except PyError (List (List α)) :=
  if size = 0 ∧ xs.length ≠ 0 then Except.error PyError.valueError
  else if xs.length = 0 then Except.ok [[]]
  else Except.ok (splitChunksAux xs.length size xs)

/-- The channelwise sum of two multivector tensors, modelling x + residual
of the source; the tensor substrate requires matching shapes here
(broadcasting of unequal channel counts does not occur in this network). -/
def mvAdd (a b : Mv) : Mv := fun i => a i + b i

/-- Elementwise addition of two channel lists, failing on mismatched
channel counts as the tensor substrate would. -/
def tensorAdd (a b : List Mv) : Except PyError (List Mv) :=
  if a.length = b.length then Except.ok (List.zipWith mvAdd a b)
  else Except.error PyError.shapeError

/-- Bilinear of mv_only_gatr.py: configuration plus the two equivariant
linear sub-layers proj_bil and proj_out. -/
structure Bilinear : Type where
  config : ModelConfig
  proj_bil : EquiLinear
  proj_out : EquiLinear

namespace Bilinear

/-- The constructor of Bilinear: raise ValueError with message Number of
hidden channels must be even. when size_channels_intermediate is odd,
otherwise build proj_bil from size_channels_hidden to
size_channels_intermediate * 2 channels and proj_out from
size_channels_intermediate to size_channels_hidden channels.  EquiLinear
construction draws fresh learned parameters; it is abstracted by the
mkLinear argument (modelled from the spec, see EquiLinear). -/
def init (mkLinear : ℕ → ℕ → EquiLinear) (config : ModelConfig) :
    Except PyError Bilinear :=
  if config.size_channels_intermediate % 2 ≠ 0 then
    Except.error PyError.valueError
  else
    Except.ok
      ⟨config,
        mkLinear config.size_channels_hidden (config.size_channels_intermediate * 2),
        mkLinear config.size_channels_intermediate config.size_channels_hidden⟩

/-- Bilinear.forward of mv_only_gatr.py: project with proj_bil, split the
channel axis into chunks of size_channels_intermediate // 2 and destructure
into the four operands lg, rg, lj, rj (a chunk count other than four raises
a ValueError from Python tuple unpacking), combine with the geometric
product and the equivariant join, concatenate along the channel axis and
project with proj_out.  The collaborators geometric_product and equi_join
are imported from ezgatr.nn.functional, which is not part of this snapshot;
they are passed as the abstract arguments gp and join (modelled from the
spec, which fixes their signatures and channel-count contracts). -/
def forward (gp : List Mv → List Mv → List Mv)
    (join : List Mv → List Mv → Option (List Mv) → List Mv)
    (b : Bilinear) (x : List Mv) (reference : Option (List Mv)) :
    Except PyError (List Mv) :=
  match torchSplit (b.proj_bil.apply x) (b.config.size_channels_intermediate / 2) with
  | Except.error e => Except.error e
  | Except.ok [lg, rg, lj, rj] =>
      Except.ok (b.proj_out.apply (gp lg rg ++ join lj rj reference))
  | Except.ok _ => Except.error PyError.valueError

end Bilinear

/-- MLP of mv_only_gatr.py: the equivariant RMS normalization layer (an
EquiRMSNorm, imported from ezgatr.nn which is not part of this snapshot and
modelled from the spec as an abstract channel map), the Bilinear sub-layer
and the final equivariant linear projection. -/
structure MLP : Type where
  config : ModelConfig
  layer_norm : List Mv → List Mv
  equi_bil : Bilinear
  proj_out : EquiLinear

namespace MLP

/-- The constructor of MLP: build the normalization layer from
size_channels_hidden, norm_eps and norm_channelwise_rescale through the
abstract EquiRMSNorm factory mkNorm, the Bilinear sub-layer (whose
constructor may raise on an odd intermediate size) and the final linear
projection from hidden to hidden channels. -/
def init (mkLinear : ℕ → ℕ → EquiLinear)
    (mkNorm : ℕ → Option ℚ → Bool → (List Mv → List Mv))
    (config : ModelConfig) : Except PyError MLP :=
  match Bilinear.init mkLinear config with
  | Except.error e => Except.error e
  | Except.ok b =>
      Except.ok
        ⟨config,
          mkNorm config.size_channels_hidden config.norm_eps
            config.norm_channelwise_rescale,
          b,
          mkLinear config.size_channels_hidden config.size_channels_hidden⟩

/-- MLP.forward of mv_only_gatr.py: save the residual, normalize, apply the
Bilinear sub-layer with the reference, apply the final linear projection to
the gated activation of the result (scaler_gated_gelu, imported from
ezgatr.nn.functional.activation which is not part of this snapshot, passed
as the abstract argument gelu per its spec contract), and add the saved
residual. -/
def forward (gp : List Mv → List Mv → List Mv)
    (join : List Mv → List Mv → Option (List Mv) → List Mv)
    (gelu : List Mv → List Mv)
    (mlp : MLP) (x : List Mv) (reference : Option (List Mv)) :
    Except PyError (List Mv) :=
  let residual := x
  match Bilinear.forward gp join mlp.equi_bil (mlp.layer_norm x) reference with
  | Except.error e => Except.error e
  | Except.ok y => tensorAdd (mlp.proj_out.apply (gelu y)) residual

end MLP

/-- The common size of the four operand groups of Bilinear.forward:
size_channels_intermediate // 2, written size_inter in the source. -/
def bilHalf (b : Bilinear) : ℕ := b.config.size_channels_intermediate / 2

/-- The output of the expanding projection proj_bil inside Bilinear.forward. -/
def bilProj (b : Bilinear) (x : List Mv) : List Mv := b.proj_bil.apply x

/-- The j-th of the four equal channel groups that Bilinear.forward splits
the projected tensor into: group j covers channels j * bilHalf b up to
(j + 1) * bilHalf b.  Group 0 is the left geometric-product operand, group 1
the right geometric-product operand, group 2 the left join operand and
group 3 the right join operand. -/
def quarter (b : Bilinear) (x : List Mv) (j : ℕ) : List Mv :=
  ((bilProj b x).drop (j * bilHalf b)).take (bilHalf b)

/-- A concrete geometric product stand-in used to evaluate the code on
explicit inputs: return the left operand. -/
def gpFst : Mv → Mv → Mv := fun a _ => a

/-- A concrete EquiLinear instance used to evaluate the layers on explicit
inputs: ignore the input and return cout zero multivectors, which satisfies
the channel-count contract. -/
def mkLinearW (a c : ℕ) : EquiLinear :=
  ⟨a, c, fun _ => List.replicate c mvZero, fun _ _ => by simp⟩

/-- A concrete channelwise geometric product stand-in: return the left
operand, which satisfies the channel-count contract. -/
def gpW : List Mv → List Mv → List Mv := fun a _ => a

/-- A concrete equivariant join stand-in: return the left operand, which
satisfies the channel-count contract. -/
def joinW : List Mv → List Mv → Option (List Mv) → List Mv := fun a _ _ => a

/-- A concrete gated activation stand-in: the identity channel map. -/
def geluW : List Mv → List Mv := fun xs => xs

/-- A concrete normalization stand-in: the identity channel map. -/
def normW : List Mv → List Mv := fun xs => xs

/-- A small configuration for concrete evaluation: one hidden channel and
two intermediate channels. -/
def cfgSmall : ModelConfig := ⟨2048, 1, 1, 1, 2, none, true⟩

/-- A configuration with the odd intermediate size five from the claim. -/
def cfgOdd : ModelConfig := ⟨2048, 1, 1, 32, 5, none, true⟩

/-- A concrete Bilinear value over cfgSmall, as Bilinear.init builds it. -/
def bilinearW : Bilinear := ⟨cfgSmall, mkLinearW 1 4, mkLinearW 2 1⟩

/-- A concrete MLP value over cfgSmall with identity normalization. -/
def mlpW : MLP := ⟨cfgSmall, normW, bilinearW, mkLinearW 1 1⟩

/-- A concrete one-channel input tensor. -/
def xW : List Mv := [mvZero]

/-- The value of the Bilinear sub-layer of mlpW on xW. -/
def yW : List Mv := [mvZero]

/-! Helper lemmas about the chunking behind torch.split. -/

theorem splitChunksAux_nil {α : Type} (fuel size : ℕ) :
    splitChunksAux fuel size ([] : List α) = [] := by
  cases fuel <;> rfl

theorem splitChunksAux_step {α : Type} (fuel size : ℕ) (xs : List α) (h : xs ≠ []) :
    splitChunksAux (fuel + 1) size xs =
      xs.take size :: splitChunksAux fuel size (xs.drop size) := by
  cases xs with
  | nil => exact absurd rfl h
  | cons a tl => rfl

theorem splitChunksAux_exact {α : Type} :
    ∀ (k size fuel : ℕ) (xs : List α), 0 < size → xs.length = k * size → k ≤ fuel →
      splitChunksAux fuel size xs =
        (List.range k).map (fun j => (xs.drop (j * size)).take size) := by
  intro k
  induction k with
  | zero =>
      intro size fuel xs _ hlen _
      have hnil : xs = [] := List.eq_nil_of_length_eq_zero (by simpa using hlen)
      subst hnil
      simp [splitChunksAux_nil]
  | succ k ih =>
      intro size fuel xs hs hlen hf
      obtain ⟨f, rfl⟩ : ∃ f, fuel = f + 1 := ⟨fuel - 1, by omega⟩
      have hxs : xs ≠ [] := by
        intro h
        subst h
        simp at hlen
        omega
      rw [splitChunksAux_step f size xs hxs]
      have hdrop : (xs.drop size).length = k * size := by
        rw [List.length_drop, hlen]
        have hmul : (k + 1) * size = k * size + size := by ring
        omega
      rw [ih size f (xs.drop size) hs hdrop (by omega)]
      rw [List.range_succ_eq_map]
      simp only [List.map_cons, List.map_map]
      congr 1
      · simp
      · apply List.map_congr_left
        intro j _
        simp only [Function.comp_apply]
        rw [List.drop_drop]
        have hadd : size + j * size = Nat.succ j * size := by
          rw [Nat.succ_mul]
          ring
        rw [hadd]

theorem torchSplit_four {xs : List Mv} {size : ℕ} (hs : 0 < size)
    (hlen : xs.length = 4 * size) :
    torchSplit xs size =
      Except.ok
        [xs.take size, (xs.drop size).take size,
          (xs.drop (2 * size)).take size, (xs.drop (3 * size)).take size] := by
  unfold torchSplit
  rw [if_neg (by omega), if_neg (by omega)]
  rw [splitChunksAux_exact 4 size xs.length xs hs (by omega) (by omega)]
  have hrange : List.range 4 = [0, 1, 2, 3] := by decide
  rw [hrange]
  simp only [List.map_cons, List.map_nil]
  norm_num

/-! Helper lemmas about the components of the translation encoder. -/

theorem translation_encode_at_zero (t : Fin 3 → ℚ) : Translation.encode t 0 = 1 := by
  simp only [Translation.encode, mvSet3, mvSet, mvZero]
  rw [dif_neg (by decide), if_pos (by decide)]

theorem translation_encode_at_bivector (t : Fin 3 → ℚ) (k : Fin 3) :
    Translation.encode t ⟨5 + k.val, by have := k.isLt; omega⟩ = -(1 / 2) * t k := by
  have hk := k.isLt
  simp only [Translation.encode, mvSet3, mvSet, mvZero]
  rw [dif_pos (by
    show 5 ≤ 5 + k.val ∧ 5 + k.val < 5 + 3
    omega)]
  congr 1
  congr 1
  apply Fin.ext
  simp

/-- Claim C5: for every 3-vector t, Translation.decode applied to
Translation.encode t with divide_by_embedding_dim at its default False
returns t exactly, for any threshold value. -/
theorem translation_round_trip (t : Fin 3 → ℚ) (threshold : ℚ) :
    Translation.decode (Translation.encode t) false threshold = t := by
  funext k
  simp only [Translation.decode, Bool.false_eq_true, if_false]
  rw [translation_encode_at_bivector t k]
  ring

/-- Claim C6: for every 3-vector t, Translation.encode t is the length-16
multivector whose index 0 is 1, whose indices 5 to 7 hold minus one half of
t, and whose remaining components are all zero. -/
theorem translation_encode_components (t : Fin 3 → ℚ) (i : Fin 16) :
    Translation.encode t i =
      if i.val = 0 then 1
      else if h : 5 ≤ i.val ∧ i.val < 8 then -(1 / 2) * t ⟨i.val - 5, by omega⟩
      else 0 := by
  simp only [Translation.encode, mvSet3, mvSet, mvZero]
  by_cases h58 : 5 ≤ i.val ∧ i.val < 8
  · rw [dif_pos (by omega), if_neg (by omega : ¬ i.val = 0), dif_pos h58]
  · by_cases h0 : i.val = 0
    · rw [dif_neg (by omega), if_pos h0, if_pos h0]
    · rw [dif_neg (by omega), if_neg h0, if_neg h0, dif_neg h58]

/-- Claim C7: for every multivector and every threshold,
Translation.decode with divide_by_embedding_dim set returns minus two times
indices 5 to 7 divided elementwise by a denominator obtained from the
scalar component by an unsigned clamp, and whenever the absolute value of
the scalar component is below the threshold the denominator is the
threshold itself; the division is never skipped. -/
theorem translation_decode_clamp (mvs : Mv) (threshold : ℚ) :
    (Translation.decode mvs true threshold = fun k =>
      (-2 * mvs ⟨5 + k.val, by have := k.isLt; omega⟩) /
        (if |mvs 0| > threshold then mvs 0 else threshold)) ∧
    (|mvs 0| < threshold →
      Translation.decode mvs true threshold = fun k =>
        (-2 * mvs ⟨5 + k.val, by have := k.isLt; omega⟩) / threshold) := by
  constructor
  · rfl
  · intro h
    funext k
    simp only [Translation.decode, if_true]
    rw [if_neg (not_lt.mpr (le_of_lt h))]

/-- Witness for claim C7, at the zero multivector and the default
threshold: the scalar component is below the threshold and the decoder
divides by the threshold itself. -/
theorem translation_decode_clamp_witness :
    |mvZero 0| < (1 / 1000 : ℚ) ∧
    Translation.decode mvZero true (1 / 1000) = fun k =>
      (-2 * mvZero ⟨5 + k.val, by have := k.isLt; omega⟩) / (1 / 1000) :=
  ⟨by norm_num [mvZero], (translation_decode_clamp mvZero (1 / 1000)).2 (by norm_num [mvZero])⟩

/-- Claim C8: for every 3D point p, Point.encode p is the length-16
multivector with index 14 set to 1, index 13 set to minus p.x, index 12 set
to p.y, index 11 set to minus p.z, and every other component zero. -/
theorem point_encode_components (p : Fin 3 → ℚ) (i : Fin 16) :
    Point.encode p i =
      if i.val = 14 then 1
      else if i.val = 13 then -p 0
      else if i.val = 12 then p 1
      else if i.val = 11 then -p 2
      else 0 := by
  simp only [Point.encode, mvSet, mvZero]
  by_cases h11 : i.val = 11 <;> by_cases h12 : i.val = 12 <;>
    by_cases h13 : i.val = 13 <;> by_cases h14 : i.val = 14 <;> simp_all

/-- Claim C9, amended: for every normal 3-vector and every scalar distance
given as a length-one 1-dimensional tensor, Plane.encode returns the
multivector with the normal at indices 2 to 4, the distance at index 1 and
every other component zero, for any geometric product collaborator; the
translation-conjugation branch is not taken in this case. -/
theorem plane_encode_scalar_distance (gp : Mv → Mv → Mv) (normals : Fin 3 → ℚ) (d : ℚ) :
    ∃ mv : Mv, Plane.encode gp normals (DistArg.dim1 [d]) = Except.ok mv ∧
      ∀ i : Fin 16,
        mv i =
          if h : 2 ≤ i.val ∧ i.val < 5 then normals ⟨i.val - 2, by omega⟩
          else if i.val = 1 then d
          else 0 := by
  refine ⟨mvSet (mvSet3 mvZero 2 normals) 1 d, rfl, ?_⟩
  intro i
  simp only [mvSet, mvSet3, mvZero]
  by_cases h24 : 2 ≤ i.val ∧ i.val < 5
  · rw [if_neg (by omega : ¬ i.val = 1), dif_pos (by omega), dif_pos h24]
  · by_cases h1 : i.val = 1
    · rw [if_pos h1, dif_neg h24, if_pos h1]
    · rw [if_neg h1, dif_neg (by omega), dif_neg h24, if_neg h1]

/-- Counterexample for claim C9 as stated: a 0-dimensional scalar distance
is not placed at index 1; the dimension test of the source compares to 1
only, so the call falls into the translation-conjugation branch and fails
with an index error when Translation.encode slices the 0-dimensional
tensor. -/
theorem plane_encode_dim0_raises :
    Plane.encode gpFst (fun _ => 1) (DistArg.dim0 2) = Except.error PyError.indexError :=
  rfl

/-- Claim C3 (evaluating the code at the failing inputs): each of the four
declared-but-unimplemented methods returns ok none, the model of the Python
value None, rather than an error value; the calls do not fail. -/
theorem unimplemented_capabilities_return_none :
    Point.decode mvZero = Except.ok none ∧
    Plane.decode mvZero = Except.ok none ∧
    Rotation.encode (fun _ => 0) = Except.ok none ∧
    Rotation.decode mvZero = Except.ok none :=
  ⟨rfl, rfl, rfl, rfl⟩

/-- Claim C10: the translation round trip also holds with
divide_by_embedding_dim set and the default threshold, because the encoder
sets the scalar component to exactly 1, which exceeds the threshold, so the
decoder divides by exactly 1. -/
theorem translation_round_trip_divide (t : Fin 3 → ℚ) :
    Translation.encode t 0 = 1 ∧
    Translation.decode (Translation.encode t) true (1 / 1000) = t := by
  refine ⟨translation_encode_at_zero t, ?_⟩
  funext k
  simp only [Translation.decode, if_true]
  rw [translation_encode_at_zero t, translation_encode_at_bivector t k]
  norm_num
  ring

/-! Helper lemmas about Bilinear.forward. -/

theorem bilinear_forward_split (gp : List Mv → List Mv → List Mv)
    (join : List Mv → List Mv → Option (List Mv) → List Mv)
    (b : Bilinear) (x : List Mv) (reference : Option (List Mv))
    (hlen : (bilProj b x).length = 2 * b.config.size_channels_intermediate)
    (heven : b.config.size_channels_intermediate % 2 = 0)
    (hpos : 0 < b.config.size_channels_intermediate) :
    Bilinear.forward gp join b x reference =
      Except.ok (b.proj_out.apply
        (gp (quarter b x 0) (quarter b x 1) ++
          join (quarter b x 2) (quarter b x 3) reference)) := by
  have hhalf : 0 < b.config.size_channels_intermediate / 2 := by omega
  have hy : (b.proj_bil.apply x).length =
      4 * (b.config.size_channels_intermediate / 2) := by
    have := hlen
    simp only [bilProj] at this
    omega
  unfold Bilinear.forward
  rw [torchSplit_four hhalf hy]
  simp only [quarter, bilProj, bilHalf]
  norm_num

theorem quarter_length (b : Bilinear) (x : List Mv)
    (hlen : (bilProj b x).length = 2 * b.config.size_channels_intermediate)
    (heven : b.config.size_channels_intermediate % 2 = 0)
    (j : ℕ) (hj : j < 4) :
    (quarter b x j).length = bilHalf b := by
  simp only [quarter, bilHalf, List.length_take, List.length_drop]
  interval_cases j <;> omega

theorem bilinear_forward_length (gp : List Mv → List Mv → List Mv)
    (join : List Mv → List Mv → Option (List Mv) → List Mv)
    (b : Bilinear) (x : List Mv) (reference : Option (List Mv))
    (hgp : ∀ a c : List Mv, a.length = c.length → (gp a c).length = a.length)
    (hjoin : ∀ (a c : List Mv) (r : Option (List Mv)), a.length = c.length →
      (join a c r).length = a.length)
    (hcin : b.proj_bil.cin = b.config.size_channels_hidden)
    (hcout : b.proj_bil.cout = 2 * b.config.size_channels_intermediate)
    (hocin : b.proj_out.cin = b.config.size_channels_intermediate)
    (hocout : b.proj_out.cout = b.config.size_channels_hidden)
    (hx : x.length = b.config.size_channels_hidden)
    (heven : b.config.size_channels_intermediate % 2 = 0)
    (hpos : 0 < b.config.size_channels_intermediate) :
    ∃ out : List Mv, Bilinear.forward gp join b x reference = Except.ok out ∧
      out.length = b.config.size_channels_hidden := by
  have hlen : (bilProj b x).length = 2 * b.config.size_channels_intermediate := by
    have h1 := b.proj_bil.len_apply x (by rw [hx, hcin])
    simp only [bilProj]
    rw [h1, hcout]
  have hq : ∀ j : ℕ, j < 4 → (quarter b x j).length = bilHalf b :=
    fun j hj => quarter_length b x hlen heven j hj
  have hcat : (gp (quarter b x 0) (quarter b x 1) ++
      join (quarter b x 2) (quarter b x 3) reference).length =
      b.config.size_channels_intermediate := by
    rw [List.length_append]
    rw [hgp _ _ (by rw [hq 0 (by omega), hq 1 (by omega)])]
    rw [hjoin _ _ _ (by rw [hq 2 (by omega), hq 3 (by omega)])]
    rw [hq 0 (by omega), hq 2 (by omega)]
    simp only [bilHalf]
    omega
  refine ⟨_, bilinear_forward_split gp join b x reference hlen heven hpos, ?_⟩
  exact (b.proj_out.len_apply _ (by rw [hcat, hocin])).trans hocout

/-- Claim C1: Bilinear.forward computes its output by applying proj_bil,
expanding the channels to 2 * size_channels_intermediate, splitting the
result along the channel axis into four equal groups of
size_channels_intermediate / 2 channels each, in the fixed order left
geometric-product operand, right geometric-product operand, left join
operand, right join operand, applying the geometric product to the first
pair and the join with the reference to the second pair, concatenating the
two results along the channel axis into size_channels_intermediate
channels, and applying proj_out back to size_channels_hidden channels. -/
theorem bilinear_forward_pipeline (gp : List Mv → List Mv → List Mv)
    (join : List Mv → List Mv → Option (List Mv) → List Mv)
    (b : Bilinear) (x : List Mv) (reference : Option (List Mv))
    (hgp : ∀ a c : List Mv, a.length = c.length → (gp a c).length = a.length)
    (hjoin : ∀ (a c : List Mv) (r : Option (List Mv)), a.length = c.length →
      (join a c r).length = a.length)
    (hcin : b.proj_bil.cin = b.config.size_channels_hidden)
    (hcout : b.proj_bil.cout = 2 * b.config.size_channels_intermediate)
    (hocin : b.proj_out.cin = b.config.size_channels_intermediate)
    (hocout : b.proj_out.cout = b.config.size_channels_hidden)
    (hx : x.length = b.config.size_channels_hidden)
    (heven : b.config.size_channels_intermediate % 2 = 0)
    (hpos : 0 < b.config.size_channels_intermediate) :
    (bilProj b x).length = 2 * b.config.size_channels_intermediate ∧
    (∀ j : Fin 4, (quarter b x j.val).length = bilHalf b) ∧
    (gp (quarter b x 0) (quarter b x 1) ++
        join (quarter b x 2) (quarter b x 3) reference).length =
      b.config.size_channels_intermediate ∧
    Bilinear.forward gp join b x reference =
      Except.ok (b.proj_out.apply
        (gp (quarter b x 0) (quarter b x 1) ++
          join (quarter b x 2) (quarter b x 3) reference)) ∧
    (b.proj_out.apply
        (gp (quarter b x 0) (quarter b x 1) ++
          join (quarter b x 2) (quarter b x 3) reference)).length =
      b.config.size_channels_hidden := by
  have hlen : (bilProj b x).length = 2 * b.config.size_channels_intermediate := by
    have h1 := b.proj_bil.len_apply x (by rw [hx, hcin])
    simp only [bilProj]
    rw [h1, hcout]
  have hq : ∀ j : ℕ, j < 4 → (quarter b x j).length = bilHalf b :=
    fun j hj => quarter_length b x hlen heven j hj
  have hcat : (gp (quarter b x 0) (quarter b x 1) ++
      join (quarter b x 2) (quarter b x 3) reference).length =
      b.config.size_channels_intermediate := by
    rw [List.length_append]
    rw [hgp _ _ (by rw [hq 0 (by omega), hq 1 (by omega)])]
    rw [hjoin _ _ _ (by rw [hq 2 (by omega), hq 3 (by omega)])]
    rw [hq 0 (by omega), hq 2 (by omega)]
    simp only [bilHalf]
    omega
  refine ⟨hlen, fun j => hq j.val j.isLt, hcat,
    bilinear_forward_split gp join b x reference hlen heven hpos, ?_⟩
  exact (b.proj_out.len_apply _ (by rw [hcat, hocin])).trans hocout

/-- Witness for claim C1, at a concrete Bilinear instance with one hidden
channel and two intermediate channels. -/
theorem bilinear_forward_pipeline_witness :
    (∀ a c : List Mv, a.length = c.length → (gpW a c).length = a.length) ∧
    (∀ (a c : List Mv) (r : Option (List Mv)), a.length = c.length →
      (joinW a c r).length = a.length) ∧
    bilinearW.proj_bil.cin = bilinearW.config.size_channels_hidden ∧
    bilinearW.proj_bil.cout = 2 * bilinearW.config.size_channels_intermediate ∧
    bilinearW.proj_out.cin = bilinearW.config.size_channels_intermediate ∧
    bilinearW.proj_out.cout = bilinearW.config.size_channels_hidden ∧
    xW.length = bilinearW.config.size_channels_hidden ∧
    bilinearW.config.size_channels_intermediate % 2 = 0 ∧
    0 < bilinearW.config.size_channels_intermediate ∧
    ((bilProj bilinearW xW).length = 2 * bilinearW.config.size_channels_intermediate ∧
      (∀ j : Fin 4, (quarter bilinearW xW j.val).length = bilHalf bilinearW) ∧
      (gpW (quarter bilinearW xW 0) (quarter bilinearW xW 1) ++
          joinW (quarter bilinearW xW 2) (quarter bilinearW xW 3) none).length =
        bilinearW.config.size_channels_intermediate ∧
      Bilinear.forward gpW joinW bilinearW xW none =
        Except.ok (bilinearW.proj_out.apply
          (gpW (quarter bilinearW xW 0) (quarter bilinearW xW 1) ++
            joinW (quarter bilinearW xW 2) (quarter bilinearW xW 3) none)) ∧
      (bilinearW.proj_out.apply
          (gpW (quarter bilinearW xW 0) (quarter bilinearW xW 1) ++
            joinW (quarter bilinearW xW 2) (quarter bilinearW xW 3) none)).length =
        bilinearW.config.size_channels_hidden) :=
  ⟨fun _ _ h => h ▸ rfl, fun _ _ _ _ => rfl, rfl, rfl, rfl, rfl, rfl, rfl, by decide,
    bilinear_forward_pipeline gpW joinW bilinearW xW none
      (fun _ _ _ => rfl) (fun _ _ _ _ => rfl) rfl rfl rfl rfl rfl rfl (by decide)⟩

/-- Claim C2: MLP.forward returns exactly
normalize-then-Bilinear-then-gated-activation-then-linear applied to x,
plus the untouched original input as a residual: it applies the
equivariant normalization layer, then the Bilinear sub-layer with the
reference, then the final linear projection applied to the gated
activation of the Bilinear output, and returns that result added
channelwise to the saved residual x. -/
theorem mlp_forward_residual (gp : List Mv → List Mv → List Mv)
    (join : List Mv → List Mv → Option (List Mv) → List Mv)
    (gelu : List Mv → List Mv)
    (mlp : MLP) (x : List Mv) (reference : Option (List Mv)) (y : List Mv)
    (hb : Bilinear.forward gp join mlp.equi_bil (mlp.layer_norm x) reference =
      Except.ok y)
    (hlen : (mlp.proj_out.apply (gelu y)).length = x.length) :
    MLP.forward gp join gelu mlp x reference =
      Except.ok (List.zipWith mvAdd (mlp.proj_out.apply (gelu y)) x) := by
  simp only [MLP.forward]
  rw [hb]
  show tensorAdd (mlp.proj_out.apply (gelu y)) x = _
  unfold tensorAdd
  rw [if_pos hlen]

/-- Witness for claim C2, at a concrete MLP instance with identity
stand-ins for the collaborators; the residual wiring gives back the sum of
the sub-layer output and the untouched input. -/
theorem mlp_forward_residual_witness :
    Bilinear.forward gpW joinW mlpW.equi_bil (mlpW.layer_norm xW) none =
      Except.ok yW ∧
    (mlpW.proj_out.apply (geluW yW)).length = xW.length ∧
    MLP.forward gpW joinW geluW mlpW xW none =
      Except.ok (List.zipWith mvAdd (mlpW.proj_out.apply (geluW yW)) xW) :=
  ⟨rfl, rfl, mlp_forward_residual gpW joinW geluW mlpW xW none yW rfl rfl⟩

/-- Claim C4: constructing Bilinear from a configuration with an odd
size_channels_intermediate raises a configuration error (the ValueError of
the source, whose message reads Number of hidden channels must be even.) at
construction time; with an even, positive value construction succeeds, and
Bilinear.forward then maps any input with size_channels_hidden channels to
an output with size_channels_hidden channels, given the channel-count
contracts of the collaborators. -/
theorem bilinear_construction_validation (mkLinear : ℕ → ℕ → EquiLinear)
    (gp : List Mv → List Mv → List Mv)
    (join : List Mv → List Mv → Option (List Mv) → List Mv)
    (cfg : ModelConfig)
    (hmkc : ∀ a c : ℕ, (mkLinear a c).cin = a)
    (hmko : ∀ a c : ℕ, (mkLinear a c).cout = c)
    (hgp : ∀ a c : List Mv, a.length = c.length → (gp a c).length = a.length)
    (hjoin : ∀ (a c : List Mv) (r : Option (List Mv)), a.length = c.length →
      (join a c r).length = a.length) :
    (cfg.size_channels_intermediate % 2 = 1 →
      Bilinear.init mkLinear cfg = Except.error PyError.valueError) ∧
    (cfg.size_channels_intermediate % 2 = 0 → 0 < cfg.size_channels_intermediate →
      ∃ b : Bilinear, Bilinear.init mkLinear cfg = Except.ok b ∧
        ∀ (x : List Mv) (reference : Option (List Mv)),
          x.length = cfg.size_channels_hidden →
          ∃ out : List Mv, Bilinear.forward gp join b x reference = Except.ok out ∧
            out.length = cfg.size_channels_hidden) := by
  constructor
  · intro hodd
    unfold Bilinear.init
    rw [if_pos (by omega)]
  · intro heven hpos
    refine ⟨⟨cfg,
      mkLinear cfg.size_channels_hidden (cfg.size_channels_intermediate * 2),
      mkLinear cfg.size_channels_intermediate cfg.size_channels_hidden⟩, ?_, ?_⟩
    · unfold Bilinear.init
      rw [if_neg (by omega)]
    · intro x reference hx
      exact bilinear_forward_length gp join _ x reference hgp hjoin
        (hmkc _ _) (by rw [hmko]; ring) (hmkc _ _) (hmko _ _) hx heven hpos

/-- Witness for claim C4, at the odd intermediate size five of the claim
and at the default configuration with the even intermediate size 32. -/
theorem bilinear_construction_validation_witness :
    cfgOdd.size_channels_intermediate % 2 = 1 ∧
    Bilinear.init mkLinearW cfgOdd = Except.error PyError.valueError ∧
    defaultConfig.size_channels_intermediate % 2 = 0 ∧
    0 < defaultConfig.size_channels_intermediate ∧
    (∃ b : Bilinear, Bilinear.init mkLinearW defaultConfig = Except.ok b ∧
      ∀ (x : List Mv) (reference : Option (List Mv)),
        x.length = defaultConfig.size_channels_hidden →
        ∃ out : List Mv, Bilinear.forward gpW joinW b x reference = Except.ok out ∧
          out.length = defaultConfig.size_channels_hidden) :=
  ⟨rfl,
    (bilinear_construction_validation mkLinearW gpW joinW cfgOdd
      (fun _ _ => rfl) (fun _ _ => rfl) (fun _ _ _ => rfl) (fun _ _ _ _ => rfl)).1 rfl,
    rfl, by decide,
    (bilinear_construction_validation mkLinearW gpW joinW defaultConfig
      (fun _ _ => rfl) (fun _ _ => rfl) (fun _ _ _ => rfl)
      (fun _ _ _ _ => rfl)).2 rfl (by decide)⟩

end Ezgatr
